import Mathlib

/-!
Shallow embedding of the news relevance scoring and filtering pipeline of
the realestate-dash repository (src/workflow/collect_apartment_news.py and
src/workflow/collect_news.py), together with theorems settling the claims
made about it.

Modelling conventions:
 - Python strings are Lean `String` / `List Char`; Python floats are exact
   rationals, float literals written with mkRat (IEEE rounding is not
   modelled);
 - the external collaborators (Naver search API transport, OpenAI chat
   call, e-mail date parser) are explicit oracle parameters, `none` or
   `Except.error` standing for a raised/failed call;
 - the two regular-expression substitutions in clean_html are embedded as
   fueled left-to-right scanners (fuel bounded by the input length), so
   that every definition is executable by kernel reduction;
 - Python's stable `list.sort(key=..., reverse=True)` is embedded as a
   stable insertion sort, characterised below by the sortedness,
   permutation and stability theorems.
-/

namespace RealEstate

/-- Python substring test (the operator `needle in hay` on str): true iff
`needle` occurs as a contiguous substring of `hay`. -/
def substrB (needle : List Char) : List Char → Bool
  | [] => needle.isEmpty
  | c :: cs => needle.isPrefixOf (c :: cs) || substrB needle cs

/-- Python str.lower (ASCII case mapping; the Korean text in this program is
caseless, so character-wise toLower is faithful here). -/
def pyLower (s : String) : String := ⟨s.data.map Char.toLower⟩

/-- Fueled scanner for Python str.replace: replaces every non-overlapping
occurrence of `pat` left to right.  Fuel is consumed one unit per character
position, so an initial fuel of the input length always suffices. -/
def raAux (pat rep : List Char) : Nat → List Char → List Char
  | _, [] => []
  | 0, l => l
  | fuel + 1, c :: cs =>
    if pat.isPrefixOf (c :: cs) then
      rep ++ raAux pat rep fuel (List.drop (pat.length - 1) cs)
    else
      c :: raAux pat rep fuel cs

def replaceAll (pat rep l : List Char) : List Char := raAux pat rep l.length l

/-- Python s.replace(pat, rep). -/
def pyReplace (s pat rep : String) : String := ⟨replaceAll pat.data rep.data s.data⟩

/-- Result of relevance scoring: the dict with keys score and reason. -/
structure Verdict where
  score : ℚ
  reason : String
deriving DecidableEq

/-- The price_keywords list of judge_relevance_simple. -/
def priceKeywords : List String := ["억", "만원", "거래", "신고가", "최고가", "매매", "전세"]

/-- judge_relevance_simple (collect_apartment_news.py lines 196-219):
keyword-based relevance heuristic. -/
def judge_relevance_simple (apartment_name news_title news_desc : String) : Verdict :=
  let combined := pyLower (news_title ++ " " ++ news_desc)
  let apt_lower := pyLower apartment_name
  if substrB apt_lower.data combined.data then
    if priceKeywords.any (fun kw => substrB kw.data combined.data) then
      { score := mkRat 9 10, reason := "직접 언급 + 가격/거래 정보" }
    else
      { score := mkRat 7 10, reason := "직접 언급" }
  else
    let apt_parts := pyReplace (pyReplace (pyReplace apt_lower "래미안" "") "자이" "") "힐스테이트" ""
    if 2 < apt_parts.length ∧ substrB apt_parts.data combined.data then
      { score := mkRat 5 10, reason := "부분 매칭" }
    else
      { score := mkRat 2 10, reason := "관련성 낮음" }

/-- judge_relevance_with_llm (collect_apartment_news.py lines 143-193).
The OpenAI round trip is modelled by `oracle`, which returns the parsed
response dict on success and `none` on any call or parse failure (the
except-branch); `apiKey` is the OPENAI_API_KEY environment value, `none`
when unset (Python truthiness treats the empty string as unset too). -/
def judge_relevance_with_llm (apiKey : Option String)
    (oracle : String → String → String → Option Verdict)
    (apartment_name news_title news_desc : String) : Verdict :=
  match apiKey with
  | none => judge_relevance_simple apartment_name news_title news_desc
  | some k =>
    if k = "" then judge_relevance_simple apartment_name news_title news_desc
    else
      match oracle apartment_name news_title news_desc with
      | some v => v
      | none => judge_relevance_simple apartment_name news_title news_desc

/-! ### clean_html (collect_apartment_news.py lines 56-67; the body of
clean_html_tags in collect_news.py lines 40-58 is identical). -/

/-- Helper for the tag regex: given the characters after an opening angle
bracket, skip to the first closing angle bracket and return the remainder
(none when no closing bracket exists). -/
def skipToClose : List Char → Option (List Char)
  | [] => none
  | c :: cs => if c = '>' then some cs else skipToClose cs

/-- Attempt to match the tail of the regex pattern of re.sub applied first
in clean_html: at least one non-close character followed by a closing
angle bracket.  `afterTag cs = some rest` means the regex matches at an
opening bracket whose remaining input is `cs`, and `rest` is the input
after the match. -/
def afterTag : List Char → Option (List Char)
  | [] => none
  | c :: cs => if c = '>' then none else skipToClose cs

/-- Fueled scanner for the first re.sub of clean_html: delete every
leftmost, non-overlapping markup tag (an opening angle bracket, one or
more non-close characters, a closing angle bracket). -/
def rtAux : Nat → List Char → List Char
  | _, [] => []
  | 0, l => l
  | fuel + 1, c :: cs =>
    if c = '<' then
      match afterTag cs with
      | some rest => rtAux fuel rest
      | none => c :: rtAux fuel cs
    else
      c :: rtAux fuel cs

def removeTags (l : List Char) : List Char := rtAux l.length l

/-- Helper for the quote regex: scan for the next double quote, returning
the span before it and the remainder after it. -/
def findQuote : List Char → Option (List Char × List Char)
  | [] => none
  | c :: cs =>
    if c = '"' then some ([], cs)
    else
      match findQuote cs with
      | some (a, rest) => some (c :: a, rest)
      | none => none

/-- Attempt to match the tail of the second re.sub pattern of clean_html:
one or more non-quote characters followed by a closing double quote.
Input is the text after an opening double quote. -/
def quoteSpan : List Char → Option (List Char × List Char)
  | [] => none
  | c :: cs =>
    if c = '"' then none
    else
      match findQuote cs with
      | some (a, rest) => some (c :: a, rest)
      | none => none

/-- Fueled scanner for the second re.sub of clean_html: rewrite every
leftmost, non-overlapping double-quoted span into the same span delimited
by single quotes. -/
def cqAux : Nat → List Char → List Char
  | _, [] => []
  | 0, l => l
  | fuel + 1, c :: cs =>
    if c = '"' then
      match quoteSpan cs with
      | some (a, rest) => '\'' :: (a ++ '\'' :: cqAux fuel rest)
      | none => c :: cqAux fuel cs
    else
      c :: cqAux fuel cs

def convQuotes (l : List Char) : List Char := cqAux l.length l

/-- The final clean.replace of clean_html: every remaining double quote
becomes a single quote. -/
def quoteFix (c : Char) : Char := if c = '"' then '\'' else c

def blanketQuotes (l : List Char) : List Char := l.map quoteFix

/-- ASCII whitespace stripped by Python str.strip (the inputs of this
program contain no further Unicode whitespace). -/
def isSpc (c : Char) : Bool :=
  c == ' ' || c == '\t' || c == '\n' || c == '\r' || c == '\x0b' || c == '\x0c'

/-- Python str.strip: drop whitespace from both ends. -/
def pyStrip (l : List Char) : List Char :=
  ((l.dropWhile isSpc).reverse.dropWhile isSpc).reverse

/-- The five HTML entity replacements of clean_html, in source order. -/
def decodeEntities (l : List Char) : List Char :=
  replaceAll "&apos;".data "'".data
    (replaceAll "&gt;".data ">".data
      (replaceAll "&lt;".data "<".data
        (replaceAll "&amp;".data "&".data
          (replaceAll "&quot;".data "\"".data l))))

def cleanChars (l : List Char) : List Char :=
  pyStrip (blanketQuotes (convQuotes (decodeEntities (removeTags l))))

/-- clean_html (collect_apartment_news.py lines 56-67): strip markup tags,
decode the five standard entities, convert double-quoted spans to
single-quoted ones, replace remaining double quotes, trim whitespace. -/
def clean_html (s : String) : String := ⟨cleanChars s.data⟩

/-- clean_html_tags (collect_news.py lines 40-58): its body performs the
same operations as clean_html. -/
def clean_html_tags (s : String) : String := ⟨cleanChars s.data⟩

/-! ### Dates, source attribution, search (collect_apartment_news.py). -/

/-- parse_date (lines 70-78).  The call to email.utils.parsedate_to_datetime
plus strftime is modelled by the oracle `pd` (none when it raises); the
except-branch truncates to the first ten characters. -/
def parse_date (pd : String → Option String) (pub_date_str : String) : String :=
  match pd pub_date_str with
  | some d => d
  | none => if 10 ≤ pub_date_str.length then ⟨pub_date_str.data.take 10⟩ else pub_date_str

/-- The source_mapping table of extract_source (lines 83-102), in source
(insertion) order. -/
def source_mapping : List (String × String) :=
  [("hankyung.com", "한국경제"), ("sedaily.com", "서울경제"), ("newsis.com", "뉴시스"),
   ("fnnews.com", "파이낸셜뉴스"), ("mk.co.kr", "매일경제"), ("chosun.com", "조선일보"),
   ("donga.com", "동아일보"), ("joongang.co.kr", "중앙일보"), ("hani.co.kr", "한겨레"),
   ("khan.co.kr", "경향신문"), ("yna.co.kr", "연합뉴스"), ("sbs.co.kr", "SBS"),
   ("kbs.co.kr", "KBS"), ("mbc.co.kr", "MBC"), ("etoday.co.kr", "이투데이"),
   ("newspim.com", "뉴스핌"), ("moneys.co.kr", "머니S"), ("bizhankook.com", "비즈한국")]

/-- extract_source (lines 81-106): first table entry whose domain is a
substring of the link, with fallback. -/
def extract_source (link : String) : String :=
  match source_mapping.find? (fun p => substrB p.1.data link.data) with
  | some p => p.2
  | none => "기타"

/-- One raw item of the Naver search response, as consumed by the pipeline.
The fields read with item.get(key, "") are total strings; originallink is
optional because item.get("originallink", item.get("link", "")) falls back
to the link when the key is absent. -/
structure RawItem where
  title : String
  description : String
  link : String
  pubDate : String
  originallink : Option String
deriving DecidableEq

/-- The search API response dict: items plus the total count. -/
structure SearchResult where
  items : List RawItem
  total : Int
deriving DecidableEq

/-- Python truthiness of a credential read from the environment:
missing (None) or the empty string. -/
def credMissing : Option String → Bool
  | none => true
  | some s => s = ""

/-- search_naver_news (lines 114-135).  Credentials are the environment
values NAVER_CLIENT_ID / NAVER_CLIENT_SECRET; the urllib round trip is the
oracle `fetch` (error = raised exception, caught by the except-branch). -/
def search_naver_news (clientId clientSecret : Option String)
    (fetch : String → Nat → Except String SearchResult)
    (query : String) (display : Nat) : SearchResult :=
  if credMissing clientId || credMissing clientSecret then { items := [], total := 0 }
  else
    match fetch query display with
    | .ok r => r
    | .error _ => { items := [], total := 0 }

/-! ### The per-apartment collection pipeline (collect_apartment_news.py
lines 238-314), beginning after the search step: relevance judgement,
threshold filtering, ranking, summary and tier computation. -/

def NEWS_PER_APARTMENT : Nat := 10

/-- MIN_RELEVANCE_SCORE (line 34): the 0.6 relevance threshold. -/
def MIN_RELEVANCE_SCORE : ℚ := mkRat 6 10

/-- The NewsItem dataclass (lines 227-235). -/
structure NewsItem where
  title : String
  link : String
  description : String
  pubDate : String
  source : String
  relevance : String
  relevance_score : ℚ
deriving DecidableEq

/-- A NewsItem dict after del item["relevance_score"] (lines 292-293). -/
structure OutItem where
  title : String
  link : String
  description : String
  pubDate : String
  source : String
  relevance : String
deriving DecidableEq

def stripScore (n : NewsItem) : OutItem :=
  { title := n.title, link := n.link, description := n.description,
    pubDate := n.pubDate, source := n.source, relevance := n.relevance }

/-- The per-apartment result dict (lines 307-314). -/
structure AptData where
  region : String
  total_news : Int
  relevance_score : String
  news_count : Nat
  summary : String
  items : List OutItem
deriving DecidableEq

/-- The NewsItem built for one raw item that passed the filter
(lines 260-283): title and description cleaned, date parsed, source
attributed, verdict attached. -/
def mkNews (judge : String → String → String → Verdict)
    (pd : String → Option String) (apt_name : String) (item : RawItem) : NewsItem :=
  let title := clean_html item.title
  let desc := clean_html item.description
  let v := judge apt_name title desc
  { title := title, link := item.link, description := desc,
    pubDate := parse_date pd item.pubDate,
    source := extract_source (item.originallink.getD item.link),
    relevance := v.reason, relevance_score := v.score }

/-- The filtering loop (lines 258-286): clean each raw item, judge it, and
keep it exactly when its verdict score reaches the threshold. -/
def filteredItems (judge : String → String → String → Verdict)
    (pd : String → Option String) (apt_name : String) (threshold : ℚ) :
    List RawItem → List NewsItem
  | [] => []
  | item :: rest =>
    let title := clean_html item.title
    let desc := clean_html item.description
    let v := judge apt_name title desc
    if threshold ≤ v.score then
      mkNews judge pd apt_name item :: filteredItems judge pd apt_name threshold rest
    else
      filteredItems judge pd apt_name threshold rest

/-- Stable descending insertion (x goes before the first element whose key
does not exceed x's key; elements inserted earlier among equals stay in
front). -/
def insertDesc (key : NewsItem → ℚ) (x : NewsItem) : List NewsItem → List NewsItem
  | [] => [x]
  | y :: ys => if key y ≤ key x then x :: y :: ys else y :: insertDesc key x ys

/-- Python filtered_items.sort(key=relevance_score, reverse=True)
(line 289): the stable descending sort, embedded as insertion sort; the
theorems below prove it sorted, a permutation, and stable. -/
def sortStep : List NewsItem → List NewsItem
  | [] => []
  | x :: xs => insertDesc (fun n => n.relevance_score) x (sortStep xs)

/-- Python " ".join of a list of strings. -/
def joinSep (sep : String) : List String → String
  | [] => ""
  | x :: xs => xs.foldl (fun acc y => acc ++ sep ++ y) x

/-- generate_summary (lines 317-340): topical keyword scan over the
retained items' combined text. -/
def generate_summary (apt_name : String) (items : List OutItem) : String :=
  if items.isEmpty then apt_name ++ " 관련 최신 뉴스가 충분하지 않습니다."
  else
    let all_text := joinSep " " (items.map (fun i => i.title ++ " " ++ i.description))
    let kws : List String :=
      (if ["신고가", "최고가", "억원"].any (fun k => substrB k.data all_text.data) then
        ["신고가 경신"] else []) ++
      (if ["상승", "급등", "오르"].any (fun k => substrB k.data all_text.data) then
        ["가격 상승"] else []) ++
      (if ["재건축", "재개발", "정비"].any (fun k => substrB k.data all_text.data) then
        ["재건축"] else []) ++
      (if ["분양", "청약", "입주"].any (fun k => substrB k.data all_text.data) then
        ["분양/입주"] else []) ++
      (if ["거래량", "매물"].any (fun k => substrB k.data all_text.data) then
        ["거래 동향"] else [])
    if kws.isEmpty then apt_name ++ " 관련 최신 부동산 뉴스입니다."
    else apt_name ++ ": " ++ joinSep ", " (kws.take 3) ++ " 관련 뉴스가 주목받고 있습니다."

/-- The aggregate-tier average (lines 299-304): the heuristic score is
recomputed with judge_relevance_simple over the already-cleaned stored
title and description of each retained item; 0 for an empty list. -/
def avgStep (apt_name : String) (items : List OutItem) : ℚ :=
  if items.isEmpty then 0
  else (items.map
    (fun i => (judge_relevance_simple apt_name i.title i.description).score)).sum
    / items.length

/-- The tier conditional (line 305). -/
def tierOf (avg : ℚ) : String :=
  if mkRat 85 100 ≤ avg then "very_high" else if mkRat 7 10 ≤ avg then "high" else "medium"

/-- collect_apartment_news (lines 238-314) from the point where the raw
search items are in hand: filter by relevance, rank, drop the numeric
score, summarise, and derive the tier. -/
def collect_core (judge : String → String → String → Verdict)
    (pd : String → Option String) (apt_name region : String)
    (total_news : Int) (raw_items : List RawItem) : AptData :=
  let filtered := filteredItems judge pd apt_name MIN_RELEVANCE_SCORE raw_items
  let sorted := sortStep filtered
  let outs := sorted.map stripScore
  let summary := generate_summary apt_name outs
  let avg := avgStep apt_name outs
  { region := region, total_news := total_news, relevance_score := tierOf avg,
    news_count := outs.length, summary := summary, items := outs }

/-- collect_apartment_news (lines 238-314) in full: search with the
apartment query, broaden to the region query when no items came back
(lines 246-254), pick the scoring strategy from the use_llm flag
(lines 265-268, chosen in main from the model credential), and run the
filter/rank/summarise core on the returned items. -/
def collect_apartment_news (use_llm : Bool) (apiKey : Option String)
    (oracle : String → String → String → Option Verdict)
    (clientId clientSecret : Option String)
    (fetch : String → Nat → Except String SearchResult)
    (pd : String → Option String) (apt_name region : String) : AptData :=
  let first := search_naver_news clientId clientSecret fetch
    (apt_name ++ " 아파트") NEWS_PER_APARTMENT
  let search_result :=
    if first.items.isEmpty then
      search_naver_news clientId clientSecret fetch
        (region ++ " " ++ apt_name) NEWS_PER_APARTMENT
    else first
  let judge := if use_llm then judge_relevance_with_llm apiKey oracle
    else judge_relevance_simple
  collect_core judge pd apt_name region search_result.total search_result.items

/-! ### The region batch runner (collect_news.py lines 143-231). -/

/-- A processed region news item (process_news_item, lines 143-151). -/
structure RegionItem where
  title : String
  link : String
  description : String
  pubDate : String
  source : String
deriving DecidableEq

/-- The extract_source_from_link table (collect_news.py lines 61-91). -/
def source_mapping_regions : List (String × String) :=
  [("hankyung.com", "한국경제"), ("sedaily.com", "서울경제"), ("newsis.com", "뉴시스"),
   ("fnnews.com", "파이낸셜뉴스"), ("mk.co.kr", "매일경제"), ("chosun.com", "조선일보"),
   ("donga.com", "동아일보"), ("joongang.co.kr", "중앙일보"), ("hani.co.kr", "한겨레"),
   ("khan.co.kr", "경향신문"), ("yna.co.kr", "연합뉴스"), ("sbs.co.kr", "SBS"),
   ("kbs.co.kr", "KBS"), ("mbc.co.kr", "MBC"), ("ichannela.com", "채널A"),
   ("inews24.com", "아이뉴스24"), ("newspim.com", "뉴스핌"), ("moneys.co.kr", "머니S"),
   ("pinpointnews.co.kr", "핀포인트뉴스"), ("areyou.co.kr", "아유경제"),
   ("munhwa.com", "문화일보"), ("mediapen.com", "미디어펜")]

def extract_source_from_link (link : String) : String :=
  match source_mapping_regions.find? (fun p => substrB p.1.data link.data) with
  | some p => p.2
  | none => "기타"

/-- process_news_item (collect_news.py lines 143-151). -/
def process_news_item (pd : String → Option String) (item : RawItem) : RegionItem :=
  { title := clean_html_tags item.title, link := item.link,
    description := clean_html_tags item.description,
    pubDate := parse_date pd item.pubDate,
    source := extract_source_from_link (item.originallink.getD item.link) }

/-- One region's record in news_headlines.json. -/
structure RegionData where
  total_news : Int
  items : List RegionItem
  summary : String
deriving DecidableEq

/-- generate_summary of collect_news.py (lines 115-140): keyword scan over
the first three items' titles.  Python deduplicates with list(set(...)),
whose iteration order is implementation defined; the embedding fixes the
first-occurrence order. -/
def generate_summary_region (items : List RegionItem) (region : String) : String :=
  if items.isEmpty then region ++ " 관련 최신 뉴스가 없습니다."
  else
    let kws := ((items.take 3).map (fun i =>
      (if ["억", "상승", "오르", "급등"].any (fun k => substrB k.data i.title.data) then
        ["가격 상승"] else []) ++
      (if ["하락", "떨어", "급락"].any (fun k => substrB k.data i.title.data) then
        ["가격 하락"] else []) ++
      (if ["재건축", "재개발", "정비"].any (fun k => substrB k.data i.title.data) then
        ["재건축"] else []) ++
      (if ["분양", "청약", "입주"].any (fun k => substrB k.data i.title.data) then
        ["분양/입주"] else []))).flatten.eraseDups
    if kws.isEmpty then region ++ " 관련 최신 부동산 뉴스입니다."
    else region ++ "은(는) " ++ joinSep ", " kws ++ " 관련 뉴스가 주목받고 있습니다."

/-- The body of the try-block of the per-region loop of collect_news.main
(lines 203-213): fetch, process every item, summarise.  The urllib/json
round trip is the oracle `fetch`; an error is the raised exception that the
except-branch catches. -/
def collect_region (fetch : String → Except String SearchResult)
    (pd : String → Option String) (region : String) : Except String RegionData :=
  match fetch region with
  | .error e => .error e
  | .ok res =>
    let items := res.items.map (process_news_item pd)
    .ok { total_news := res.total, items := items,
          summary := generate_summary_region items region }

/-- The merge loop of collect_news.main (lines 191-222): for each region in
order, store the fresh record on success; on failure, keep the prior run's
record when the prior data has one, else store nothing.  The regions map of
the output document is modelled as a lookup function (dict assignment is
pointwise update). -/
def mergeStep (prior : Option (String → Option RegionData))
    (fetch : String → Except String SearchResult) (pd : String → Option String)
    (acc : String → Option RegionData) (region : String) : String → Option RegionData :=
  match collect_region fetch pd region with
  | .ok d => fun k => if k = region then some d else acc k
  | .error _ =>
    match prior.bind (fun m => m region) with
    | some old => fun k => if k = region then some old else acc k
    | none => acc

def mergeRegions (prior : Option (String → Option RegionData))
    (fetch : String → Except String SearchResult) (pd : String → Option String)
    (regions : List String) : String → Option RegionData :=
  regions.foldl (mergeStep prior fetch pd) (fun _ => none)

/-! ### Definitions written from the wording of the claims (for the
refinement-style comparisons); each is marked spec-side. -/

/-- Spec-side rendering of the heuristic scorer exactly as the claim words
it: lower-cased comparison against the concatenated title and description,
direct mention with/without a transactional keyword, brand-stripped
fragment of length above two, low-relevance fallback.  The reason strings
are the source's literal Korean strings, of which the claim's English
texts are the spec's glosses. -/
def spec_heuristic_verdict (entityName title description : String) : Verdict :=
  let text := pyLower (title ++ " " ++ description)
  let name := pyLower entityName
  if substrB name.data text.data then
    if priceKeywords.any (fun kw => substrB kw.data text.data) then
      { score := mkRat 9 10, reason := "직접 언급 + 가격/거래 정보" }
    else
      { score := mkRat 7 10, reason := "직접 언급" }
  else
    let frag := pyReplace (pyReplace (pyReplace name "래미안" "") "자이" "") "힐스테이트" ""
    if 2 < frag.length ∧ substrB frag.data text.data then
      { score := mkRat 5 10, reason := "부분 매칭" }
    else
      { score := mkRat 2 10, reason := "관련성 낮음" }

/-- Spec-side tier of an EntityResult as the claim words it: derived from
the mean of the given scores, at least 0.85 very_high, at least 0.70 high,
below medium, empty list medium. -/
def claimTier (scores : List ℚ) : String :=
  if scores.isEmpty then "medium"
  else if mkRat 85 100 ≤ scores.sum / scores.length then "very_high"
  else if mkRat 7 10 ≤ scores.sum / scores.length then "high"
  else "medium"

/-- No markup tag span: the text contains no substring consisting of an
opening angle bracket, a nonempty run of non-close characters, and a
closing angle bracket (the spans clean_html's tag regex removes). -/
def noTagSpan (l : List Char) : Prop :=
  ¬ ∃ u a w, l = u ++ '<' :: (a ++ '>' :: w) ∧ a ≠ [] ∧ '>' ∉ a

/-- Decidable fixpoint predicate for the tag scanner: at every opening
angle bracket the tag pattern fails to match. -/
def tagFree : List Char → Bool
  | [] => true
  | c :: cs => (if c = '<' then (afterTag cs).isNone else true) && tagFree cs

/-- Quote-variant relation: the quote-conversion passes change some double
quotes into single quotes and keep every other character in place. -/
def qv (a b : Char) : Prop := b = a ∨ (a = '"' ∧ b = '\'')

/-! ### Concrete fixtures used by the example/counterexample theorems. -/

/-- Stub scorer for the rank-ordering example of claim C2, assigning the
scores 0.9, 0.9, 0.3, 0.7 to the titles A, B, C, D. -/
def judgeExample : String → String → String → Verdict := fun _ title _ =>
  if title = "A" then { score := mkRat 9 10, reason := "a" }
  else if title = "B" then { score := mkRat 9 10, reason := "b" }
  else if title = "C" then { score := mkRat 3 10, reason := "c" }
  else { score := mkRat 7 10, reason := "d" }

/-- A raw document with the given title and empty remaining fields. -/
def rawDoc (t : String) : RawItem :=
  { title := t, description := "", link := "", pubDate := "", originallink := none }

/-- Raw item for the claim C5 counterexample: its text never mentions the
entity, so heuristic re-scoring gives 0.2. -/
def rawCE : RawItem :=
  { title := "금리 인하", description := "시장 동향", link := "", pubDate := "",
    originallink := none }

/-- Model-backed scorer for the claim C5 counterexample: the credential is
present and the parsed model response scores every document 0.9. -/
def judgeCE : String → String → String → Verdict :=
  judge_relevance_with_llm (some "sk-live")
    (fun _ _ _ => some { score := mkRat 9 10, reason := "llm 판단" })

/-- Prior-run record for the carry-forward witness. -/
def oldRecordCF : RegionData :=
  { total_news := 7, items := [], summary := "이전 실행 결과" }

/-- Prior-run regions map for the carry-forward witness. -/
def priorCF : String → Option RegionData :=
  fun k => if k = "잠실동" then some oldRecordCF else none

/-- Transport for the carry-forward witness: raises for one region,
succeeds for the rest. -/
def fetchCF : String → Except String SearchResult :=
  fun region =>
    if region = "잠실동" then .error "HTTP 500" else .ok { items := [], total := 3 }

/-! ## Theorems -/

/-- Helper: the heuristic verdict score is one of the four constants. -/
theorem simple_score_cases (n t d : String) :
    (judge_relevance_simple n t d).score = mkRat 9 10 ∨
    (judge_relevance_simple n t d).score = mkRat 7 10 ∨
    (judge_relevance_simple n t d).score = mkRat 5 10 ∨
    (judge_relevance_simple n t d).score = mkRat 2 10 := by
  unfold judge_relevance_simple
  dsimp only
  split_ifs <;> simp

/-- Helper: heuristic scores lie in the unit interval. -/
theorem simple_score_bounds (n t d : String) :
    0 ≤ (judge_relevance_simple n t d).score ∧ (judge_relevance_simple n t d).score ≤ 1 := by
  rcases simple_score_cases n t d with h | h | h | h <;> rw [h] <;> exact ⟨by decide, by decide⟩

/-- Claim C4: the heuristic relevance scorer is exactly the total function
described by the spec: lower-cased substring check of the entity name
against the concatenated title and description; 0.9 with a transactional
keyword co-occurring, 0.7 without; 0.5 when the brand-stripped fragment of
length above two still occurs; 0.2 otherwise (reason strings are the Korean
originals of the claim's English glosses). -/
theorem c4_heuristic_scorer (entityName title description : String) :
    judge_relevance_simple entityName title description =
      spec_heuristic_verdict entityName title description := rfl

/-- Claim C10: with the model credential absent from the environment, the
model-backed scoring function returns exactly the heuristic verdict on
every input, whatever the model oracle would have answered. -/
theorem c10_absent_key_is_heuristic
    (oracle : String → String → String → Option Verdict)
    (entityName title description : String) :
    judge_relevance_with_llm none oracle entityName title description =
      judge_relevance_simple entityName title description := rfl

/-- Claim C9: with either search credential absent (or empty, which Python
truthiness also treats as unset), the search adapter returns the empty
result set without consulting the transport at all; the embedding is a
total function, so no exception can escape. -/
theorem c9_degrade_to_empty (clientId clientSecret : Option String)
    (fetch : String → Nat → Except String SearchResult) (query : String) (display : Nat)
    (h : (credMissing clientId || credMissing clientSecret) = true) :
    search_naver_news clientId clientSecret fetch query display =
      { items := [], total := 0 } := by
  unfold search_naver_news
  rw [if_pos h]

/-- Witness for claim C9 at a concrete input: missing credentials and a
transport that would raise. -/
theorem c9_degrade_to_empty_witness :
    search_naver_news none none (fun _ _ => .error "HTTP 401") "잠실동 아파트" 10 =
      { items := [], total := 0 } :=
  c9_degrade_to_empty none none (fun _ _ => .error "HTTP 401") "잠실동 아파트" 10 (by decide)

/-- Counterexample to claim C8: the model-backed scorer returns the parsed
model response without clamping or validation, so a response with score 1.5
yields a verdict score outside the unit interval. -/
theorem c8_counterexample :
    1 < (judge_relevance_with_llm (some "sk-test")
      (fun _ _ _ => some { score := mkRat 3 2, reason := "판단" })
      "헬리오시티" "제목" "본문").score := by decide

/-- Claim C8 as amended: the heuristic strategy always scores within
the unit interval; the model-backed strategy does so whenever the
credential is absent (heuristic fallback) and, credential present,
whenever the parsed model response does — the code itself never clamps. -/
theorem c8_score_domain :
    (∀ n t d, 0 ≤ (judge_relevance_simple n t d).score ∧
      (judge_relevance_simple n t d).score ≤ 1)
    ∧ (∀ (oracle : String → String → String → Option Verdict) n t d,
        0 ≤ (judge_relevance_with_llm none oracle n t d).score ∧
        (judge_relevance_with_llm none oracle n t d).score ≤ 1)
    ∧ (∀ (k : String) (oracle : String → String → String → Option Verdict) n t d,
        (∀ v, oracle n t d = some v → 0 ≤ v.score ∧ v.score ≤ 1) →
        0 ≤ (judge_relevance_with_llm (some k) oracle n t d).score ∧
        (judge_relevance_with_llm (some k) oracle n t d).score ≤ 1) := by
  refine ⟨fun n t d => simple_score_bounds n t d,
    fun oracle n t d => simple_score_bounds n t d,
    fun k oracle n t d ho => ?_⟩
  unfold judge_relevance_with_llm
  dsimp only
  split_ifs
  · exact simple_score_bounds n t d
  · cases hv : oracle n t d with
    | none => simpa [hv] using simple_score_bounds n t d
    | some v => simpa [hv] using ho v hv

/-- Witness for the amended claim C8, at a concrete key, oracle and input,
with the bounded-response hypothesis discharged explicitly. -/
theorem c8_score_domain_witness :
    0 ≤ (judge_relevance_with_llm (some "sk-test")
        (fun _ _ _ => some { score := mkRat 4 5, reason := "판단" }) "리센츠" "제목" "본문").score ∧
    (judge_relevance_with_llm (some "sk-test")
        (fun _ _ _ => some { score := mkRat 4 5, reason := "판단" }) "리센츠" "제목" "본문").score ≤ 1 :=
  c8_score_domain.2.2 "sk-test" (fun _ _ _ => some { score := mkRat 4 5, reason := "판단" })
    "리센츠" "제목" "본문"
    (fun v hv => by injection hv with h; rw [← h]; exact ⟨by decide, by decide⟩)

/-- Helper: the filtering loop is the threshold filter over the built
news items. -/
theorem filteredItems_eq_filter (judge : String → String → String → Verdict)
    (pd : String → Option String) (apt_name : String) (θ : ℚ) (raw : List RawItem) :
    filteredItems judge pd apt_name θ raw =
      (raw.map (mkNews judge pd apt_name)).filter
        (fun n => decide (θ ≤ n.relevance_score)) := by
  induction raw with
  | nil => rfl
  | cons item rest ih =>
    show (if θ ≤ (judge apt_name (clean_html item.title) (clean_html item.description)).score
        then mkNews judge pd apt_name item :: filteredItems judge pd apt_name θ rest
        else filteredItems judge pd apt_name θ rest) = _
    rw [List.map_cons, List.filter_cons]
    by_cases h : θ ≤ (judge apt_name (clean_html item.title) (clean_html item.description)).score
    · rw [if_pos h, ih]
      have hs : decide (θ ≤ (mkNews judge pd apt_name item).relevance_score) = true :=
        decide_eq_true h
      rw [hs, if_pos rfl]
    · rw [if_neg h, ih]
      have hs : decide (θ ≤ (mkNews judge pd apt_name item).relevance_score) = false :=
        decide_eq_false h
      rw [hs]
      simp

/-- Claim C1: the filtering step retains exactly the candidates whose
verdict score reaches the threshold — it equals the threshold filter over
all judged candidates, every retained item's score is at least the
threshold, the emitted record's matchedDocuments are exactly the retained
items (ranked, score field dropped), and the configured default threshold
is 0.6. -/
theorem c1_filter_threshold (threshold : ℚ)
    (judge : String → String → String → Verdict) (pd : String → Option String)
    (apt_name region : String) (total : Int) (raw_items : List RawItem) :
    filteredItems judge pd apt_name threshold raw_items =
      (raw_items.map (mkNews judge pd apt_name)).filter
        (fun n => decide (threshold ≤ n.relevance_score))
    ∧ (filteredItems judge pd apt_name threshold raw_items).all
        (fun n => decide (threshold ≤ n.relevance_score)) = true
    ∧ (collect_core judge pd apt_name region total raw_items).items =
        (sortStep (filteredItems judge pd apt_name MIN_RELEVANCE_SCORE raw_items)).map
          stripScore
    ∧ MIN_RELEVANCE_SCORE = mkRat 6 10 := by
  refine ⟨filteredItems_eq_filter judge pd apt_name threshold raw_items, ?_, rfl, rfl⟩
  rw [filteredItems_eq_filter]
  exact List.all_eq_true.2 (fun n hn => (List.mem_filter.1 hn).2)

/-! ### The ranking step (claim C2). -/

/-- Helper: membership in a stable descending insertion. -/
theorem mem_insertDesc (key : NewsItem → ℚ) (x : NewsItem) (l : List NewsItem)
    (z : NewsItem) : z ∈ insertDesc key x l ↔ z = x ∨ z ∈ l := by
  induction l with
  | nil => simp [insertDesc]
  | cons y ys ih =>
    unfold insertDesc
    split_ifs
    · simp
    · simp [ih]
      tauto

/-- Helper: inserting preserves descending sortedness. -/
theorem sorted_insertDesc (key : NewsItem → ℚ) (x : NewsItem) (l : List NewsItem)
    (h : l.Pairwise (fun a b => key b ≤ key a)) :
    (insertDesc key x l).Pairwise (fun a b => key b ≤ key a) := by
  induction l with
  | nil => simp [insertDesc]
  | cons y ys ih =>
    rw [List.pairwise_cons] at h
    unfold insertDesc
    split_ifs with hxy
    · rw [List.pairwise_cons]
      refine ⟨?_, List.pairwise_cons.2 h⟩
      intro z hz
      rcases List.mem_cons.1 hz with rfl | hz
      · exact hxy
      · exact le_trans (h.1 z hz) hxy
    · rw [List.pairwise_cons]
      refine ⟨?_, ih h.2⟩
      intro z hz
      rcases (mem_insertDesc key x ys z).1 hz with rfl | hz
      · exact le_of_lt (lt_of_not_le hxy)

      · exact h.1 z hz

/-- Helper: insertion is a permutation of consing. -/
theorem perm_insertDesc (key : NewsItem → ℚ) (x : NewsItem) (l : List NewsItem) :
    List.Perm (insertDesc key x l) (x :: l) := by
  induction l with
  | nil => exact List.Perm.refl _
  | cons y ys ih =>
    unfold insertDesc
    split_ifs
    · exact List.Perm.refl _
    · exact (ih.cons y).trans (List.Perm.swap x y ys)

/-- Helper: the ranking step is sorted descending by score. -/
theorem sorted_sortStep (l : List NewsItem) :
    (sortStep l).Pairwise (fun a b => b.relevance_score ≤ a.relevance_score) := by
  induction l with
  | nil => exact List.Pairwise.nil
  | cons x xs ih => exact sorted_insertDesc _ x (sortStep xs) ih

/-- Helper: the ranking step permutes its input. -/
theorem perm_sortStep (l : List NewsItem) : List.Perm (sortStep l) l := by
  induction l with
  | nil => exact List.Perm.refl _
  | cons x xs ih => exact (perm_insertDesc _ x (sortStep xs)).trans (ih.cons x)

/-- Helper: inserting an element keeps it in front of the equal-key
elements already present. -/
theorem filter_insertDesc_eq_key (key : NewsItem → ℚ) (x : NewsItem) (l : List NewsItem) :
    (insertDesc key x l).filter (fun z => decide (key z = key x)) =
      x :: l.filter (fun z => decide (key z = key x)) := by
  induction l with
  | nil => simp [insertDesc]
  | cons y ys ih =>
    unfold insertDesc
    split_ifs with hxy
    · rw [List.filter_cons, List.filter_cons]
      simp
    · have hne : decide (key y = key x) = false := by
        refine decide_eq_false (fun he => ?_)
        exact hxy (le_of_eq he)
      rw [List.filter_cons, hne, List.filter_cons, hne]
      simpa using ih

/-- Helper: inserting an element leaves the other key classes untouched. -/
theorem filter_insertDesc_ne_key (key : NewsItem → ℚ) (x : NewsItem) (l : List NewsItem)
    (s : ℚ) (hs : key x ≠ s) :
    (insertDesc key x l).filter (fun z => decide (key z = s)) =
      l.filter (fun z => decide (key z = s)) := by
  induction l with
  | nil => simp [insertDesc, hs]
  | cons y ys ih =>
    unfold insertDesc
    split_ifs
    · rw [List.filter_cons (x := x), decide_eq_false hs]
      simp
    · rw [List.filter_cons, List.filter_cons (x := y)]
      rw [ih]

/-- Helper: stability of the ranking step, phrased as in Python's stable
sort contract — within each equal-score class the original order is kept. -/
theorem filter_sortStep (l : List NewsItem) (s : ℚ) :
    (sortStep l).filter (fun n => decide (n.relevance_score = s)) =
      l.filter (fun n => decide (n.relevance_score = s)) := by
  induction l with
  | nil => rfl
  | cons x xs ih =>
    show (insertDesc (fun n => n.relevance_score) x (sortStep xs)).filter _ = _
    by_cases hx : x.relevance_score = s
    · subst hx
      rw [filter_insertDesc_eq_key, ih, List.filter_cons]
      simp
    · rw [filter_insertDesc_ne_key _ _ _ _ hx, ih, List.filter_cons,
        decide_eq_false hx]
      simp

/-- Helper: a descending-sorted list is determined by its multiset and its
per-score-class order; this pins the embedding down, since Python's stable
list.sort is specified by exactly these three properties. -/
theorem sorted_stable_unique (a : List NewsItem) :
    ∀ b, List.Perm a b →
    a.Pairwise (fun x y => y.relevance_score ≤ x.relevance_score) →
    b.Pairwise (fun x y => y.relevance_score ≤ x.relevance_score) →
    (∀ s : ℚ, a.filter (fun n => decide (n.relevance_score = s)) =
      b.filter (fun n => decide (n.relevance_score = s))) → a = b := by
  induction a with
  | nil =>
    intro b hab _ _ _
    exact (hab.symm.eq_nil).symm
  | cons x xs ih =>
    intro b hab hsa hsb hf
    cases b with
    | nil => exact absurd hab.eq_nil (by simp)
    | cons y ys =>
      have hxy : x.relevance_score = y.relevance_score := by
        have h1 : y.relevance_score ≤ x.relevance_score := by
          have hy : y ∈ x :: xs := hab.symm.subset (List.mem_cons_self y ys)
          rcases List.mem_cons.1 hy with rfl | hy'
          · exact le_rfl
          · exact (List.pairwise_cons.1 hsa).1 y hy'
        have h2 : x.relevance_score ≤ y.relevance_score := by
          have hx : x ∈ y :: ys := hab.subset (List.mem_cons_self x xs)
          rcases List.mem_cons.1 hx with rfl | hx'
          · exact le_rfl
          · exact (List.pairwise_cons.1 hsb).1 x hx'
        exact le_antisymm h2 h1
      have hdx : decide (x.relevance_score = x.relevance_score) = true :=
        decide_eq_true rfl
      have hdy : decide (y.relevance_score = x.relevance_score) = true :=
        decide_eq_true hxy.symm
      have hfs := hf x.relevance_score
      rw [List.filter_cons, List.filter_cons, hdx, hdy] at hfs
      simp only [if_pos] at hfs
      injection hfs with hhead htail
      subst hhead
      have hperm' : List.Perm xs ys := List.Perm.cons_inv hab
      have hftail : ∀ s : ℚ, xs.filter (fun n => decide (n.relevance_score = s)) =
          ys.filter (fun n => decide (n.relevance_score = s)) := by
        intro s
        by_cases hs : x.relevance_score = s
        · rw [← hs]
          exact htail
        · have hdx' : decide (x.relevance_score = s) = false := decide_eq_false hs
          have h0 := hf s
          rw [List.filter_cons, List.filter_cons, hdx'] at h0
          simpa using h0
      rw [ih ys hperm' (List.pairwise_cons.1 hsa).2 (List.pairwise_cons.1 hsb).2 hftail]

/-- Helper: the ranking step's output is the unique descending-sorted
permutation that preserves the provider order inside every score class —
the specification of Python's stable sort. -/
theorem sortStep_unique (l l' : List NewsItem)
    (hperm : List.Perm l' l)
    (hsort : l'.Pairwise (fun a b => b.relevance_score ≤ a.relevance_score))
    (hstab : ∀ s : ℚ, l'.filter (fun n => decide (n.relevance_score = s)) =
      l.filter (fun n => decide (n.relevance_score = s))) :
    l' = sortStep l :=
  sorted_stable_unique l' (sortStep l)
    (hperm.trans (perm_sortStep l).symm) hsort (sorted_sortStep l)
    (fun s => (hstab s).trans (filter_sortStep l s).symm)

/-- Claim C2: the ranking step stable-sorts the retained candidates by
verdict score descending — the output is sorted descending, a permutation
of the input, and within every equal-score class the original provider
order survives; on provider order A, B, C, D with scores 0.9, 0.9, 0.3,
0.7 and threshold 0.6 the result order is A, B, D. -/
theorem c2_stable_ranking :
    (∀ l : List NewsItem,
      (sortStep l).Pairwise (fun a b => b.relevance_score ≤ a.relevance_score))
    ∧ (∀ l : List NewsItem, List.Perm (sortStep l) l)
    ∧ (∀ (l : List NewsItem) (s : ℚ),
        (sortStep l).filter (fun n => decide (n.relevance_score = s)) =
          l.filter (fun n => decide (n.relevance_score = s)))
    ∧ (sortStep (filteredItems judgeExample (fun _ => none) "표본단지" (mkRat 6 10)
        [rawDoc "A", rawDoc "B", rawDoc "C", rawDoc "D"])).map (fun n => n.title) =
        ["A", "B", "D"] := by
  exact ⟨sorted_sortStep, perm_sortStep, filter_sortStep, by decide⟩

/-! ### The relevance tier (claim C5). -/

/-- Helper: projections of the built news item. -/
theorem mkNews_title (judge : String → String → String → Verdict)
    (pd : String → Option String) (apt_name : String) (item : RawItem) :
    (mkNews judge pd apt_name item).title = clean_html item.title := rfl

theorem mkNews_description (judge : String → String → String → Verdict)
    (pd : String → Option String) (apt_name : String) (item : RawItem) :
    (mkNews judge pd apt_name item).description = clean_html item.description := rfl

theorem mkNews_score (judge : String → String → String → Verdict)
    (pd : String → Option String) (apt_name : String) (item : RawItem) :
    (mkNews judge pd apt_name item).relevance_score =
      (judge apt_name (clean_html item.title) (clean_html item.description)).score := rfl

theorem stripScore_title (n : NewsItem) : (stripScore n).title = n.title := rfl

theorem stripScore_description (n : NewsItem) :
    (stripScore n).description = n.description := rfl

/-- Helper: the claim-side tier of the heuristic re-scores equals the
code's tier of their average. -/
theorem claimTier_eq_tier (apt_name : String) (outs : List OutItem) :
    claimTier (outs.map
        (fun i => (judge_relevance_simple apt_name i.title i.description).score)) =
      tierOf (avgStep apt_name outs) := by
  cases outs with
  | nil =>
    have h0 : avgStep apt_name [] = 0 := rfl
    show claimTier [] = tierOf (avgStep apt_name [])
    rw [h0]
    decide
  | cons o os =>
    simp [claimTier, avgStep, tierOf, List.length_map]

/-- Helper: the claim-side tier only depends on the multiset of scores. -/
theorem claimTier_perm {s1 s2 : List ℚ} (h : List.Perm s1 s2) :
    claimTier s1 = claimTier s2 := by
  cases s1 with
  | nil =>
    have h2 : s2 = [] := h.symm.eq_nil
    rw [h2]
  | cons x xs =>
    cases s2 with
    | nil => exact absurd h.eq_nil (by simp)
    | cons y ys =>
      unfold claimTier
      rw [h.sum_eq, h.length_eq]
      simp

/-- Helper: average of a single retained item. -/
theorem avgStep_singleton (apt_name : String) (o : OutItem) :
    avgStep apt_name [o] =
      (judge_relevance_simple apt_name o.title o.description).score := by
  simp [avgStep]

/-- Helper: the claim-side tier of one score. -/
theorem claimTier_singleton (x : ℚ) : claimTier [x] = tierOf x := by
  simp [claimTier, tierOf]

/-- Counterexample to claim C5: when the model-backed strategy filters (a
model verdict of 0.9 retains the document), the emitted tier comes from the
recomputed heuristic score (0.2 here, giving medium), not from the mean of
the retained documents' verdict scores (0.9, which the claim says must give
very_high). -/
theorem c5_counterexample :
    (collect_core judgeCE (fun _ => none) "개포자이" "개포동" 1 [rawCE]).relevance_score ≠
      claimTier ((filteredItems judgeCE (fun _ => none) "개포자이" MIN_RELEVANCE_SCORE
        [rawCE]).map (fun n => n.relevance_score)) := by
  have h1 : (filteredItems judgeCE (fun _ => none) "개포자이" MIN_RELEVANCE_SCORE
      [rawCE]).map (fun n => n.relevance_score) = [mkRat 9 10] := rfl
  have h2 : (collect_core judgeCE (fun _ => none) "개포자이" "개포동" 1 [rawCE]).relevance_score =
      tierOf (avgStep "개포자이"
        [stripScore (mkNews judgeCE (fun _ => none) "개포자이" rawCE)]) := rfl
  rw [h1, h2, claimTier_singleton, avgStep_singleton]
  have h3 : (judge_relevance_simple "개포자이"
      (stripScore (mkNews judgeCE (fun _ => none) "개포자이" rawCE)).title
      (stripScore (mkNews judgeCE (fun _ => none) "개포자이" rawCE)).description).score =
      mkRat 2 10 := rfl
  rw [h3]
  decide

/-- Claim C5 as amended: relevanceTier is derived — with the stated
boundaries (mean at least 0.85 very_high, at least 0.70 high, below
medium, empty set medium) — from the mean of the heuristic re-scores of
the retained documents, which coincides with the mean of the verdict
scores exactly when the heuristic strategy judged the run (second
conjunct). -/
theorem c5_tier_boundaries :
    (∀ (judge : String → String → String → Verdict) (pd : String → Option String)
        (apt_name region : String) (total : Int) (raw : List RawItem),
      (collect_core judge pd apt_name region total raw).relevance_score =
        claimTier ((collect_core judge pd apt_name region total raw).items.map
          (fun i => (judge_relevance_simple apt_name i.title i.description).score)))
    ∧ (∀ (pd : String → Option String) (apt_name region : String) (total : Int)
        (raw : List RawItem),
      (collect_core judge_relevance_simple pd apt_name region total raw).relevance_score =
        claimTier ((filteredItems judge_relevance_simple pd apt_name MIN_RELEVANCE_SCORE
          raw).map (fun n => n.relevance_score))) := by
  constructor
  · intro judge pd apt_name region total raw
    exact (claimTier_eq_tier apt_name _).symm
  · intro pd apt_name region total raw
    have base : (collect_core judge_relevance_simple pd apt_name region total
        raw).relevance_score =
        claimTier (((sortStep (filteredItems judge_relevance_simple pd apt_name
          MIN_RELEVANCE_SCORE raw)).map stripScore).map
            (fun i => (judge_relevance_simple apt_name i.title i.description).score)) :=
      (claimTier_eq_tier apt_name _).symm
    rw [base, List.map_map]
    have hmap : (sortStep (filteredItems judge_relevance_simple pd apt_name
        MIN_RELEVANCE_SCORE raw)).map
          ((fun i => (judge_relevance_simple apt_name i.title i.description).score) ∘
            stripScore) =
        (sortStep (filteredItems judge_relevance_simple pd apt_name
          MIN_RELEVANCE_SCORE raw)).map (fun n => n.relevance_score) := by
      refine List.map_congr_left ?_
      intro n hn
      have hn' : n ∈ filteredItems judge_relevance_simple pd apt_name
          MIN_RELEVANCE_SCORE raw :=
        (perm_sortStep _).mem_iff.1 hn
      rw [filteredItems_eq_filter] at hn'
      obtain ⟨item, hitem, rfl⟩ := List.mem_map.1 (List.mem_of_mem_filter hn')
      simp only [Function.comp_apply, stripScore_title, stripScore_description,
        mkNews_title, mkNews_description, mkNews_score]
    rw [hmap]
    exact claimTier_perm ((perm_sortStep _).map _)

/-! ### The region batch runner and carry-forward (claim C3). -/

/-- Helper: the merge step leaves all other regions' entries unchanged. -/
theorem mergeStep_ne (prior : Option (String → Option RegionData))
    (fetch : String → Except String SearchResult) (pd : String → Option String)
    (acc : String → Option RegionData) (region X : String) (h : X ≠ region) :
    mergeStep prior fetch pd acc region X = acc X := by
  cases hcr : collect_region fetch pd region with
  | ok d => simp [mergeStep, hcr, h]
  | error e =>
    cases hp : prior.bind (fun m => m region) with
    | some old => simp [mergeStep, hcr, hp, h]
    | none => simp [mergeStep, hcr, hp]

/-- Helper: folding over regions not containing X never touches X's entry. -/
theorem merge_foldl_not_mem (prior : Option (String → Option RegionData))
    (fetch : String → Except String SearchResult) (pd : String → Option String)
    (regions : List String) (acc : String → Option RegionData) (X : String)
    (hx : X ∉ regions) :
    List.foldl (mergeStep prior fetch pd) acc regions X = acc X := by
  induction regions generalizing acc with
  | nil => rfl
  | cons r rest ih =>
    rw [List.foldl_cons]
    have hxr : X ≠ r := fun he => hx (he ▸ List.mem_cons_self r rest)
    rw [ih _ (fun hm => hx (List.mem_cons_of_mem r hm)),
      mergeStep_ne prior fetch pd acc r X hxr]

/-- Helper: a region whose collection raises keeps its prior record. -/
theorem merge_foldl_mem_error (prior : String → Option RegionData)
    (fetch : String → Except String SearchResult) (pd : String → Option String)
    (regions : List String) (acc : String → Option RegionData) (X : String)
    (old : RegionData) (e : String) (hmem : X ∈ regions)
    (herr : collect_region fetch pd X = .error e) (hold : prior X = some old) :
    List.foldl (mergeStep (some prior) fetch pd) acc regions X = some old := by
  induction regions generalizing acc with
  | nil => cases hmem
  | cons r rest ih =>
    rw [List.foldl_cons]
    by_cases hr : X ∈ rest
    · exact ih _ hr
    · have hxr : X = r := by
        rcases List.mem_cons.1 hmem with h | h
        · exact h
        · exact absurd h hr
      subst hxr
      rw [merge_foldl_not_mem _ _ _ _ _ _ hr]
      simp [mergeStep, herr, hold]

/-- Helper: a region whose collection succeeds gets its fresh record. -/
theorem merge_foldl_mem_ok (prior : Option (String → Option RegionData))
    (fetch : String → Except String SearchResult) (pd : String → Option String)
    (regions : List String) (acc : String → Option RegionData) (X : String)
    (d : RegionData) (hmem : X ∈ regions)
    (hok : collect_region fetch pd X = .ok d) :
    List.foldl (mergeStep prior fetch pd) acc regions X = some d := by
  induction regions generalizing acc with
  | nil => cases hmem
  | cons r rest ih =>
    rw [List.foldl_cons]
    by_cases hr : X ∈ rest
    · exact ih _ hr
    · have hxr : X = r := by
        rcases List.mem_cons.1 hmem with h | h
        · exact h
        · exact absurd h hr
      subst hxr
      rw [merge_foldl_not_mem _ _ _ _ _ _ hr]
      simp [mergeStep, hok]

/-- Claim C3: when the current run's collection raises for region X and the
prior run has a record for X, the batch runner's merged output still maps X
to that prior record unchanged; the batch is a total function that keeps
processing the remaining regions, each successfully collected region
receiving its fresh record. -/
theorem c3_carry_forward (prior : String → Option RegionData)
    (fetch : String → Except String SearchResult) (pd : String → Option String)
    (regions : List String) (X : String) (old : RegionData) (e : String)
    (hmem : X ∈ regions) (herr : collect_region fetch pd X = .error e)
    (hold : prior X = some old) :
    mergeRegions (some prior) fetch pd regions X = some old
    ∧ ∀ (Y : String) (d : RegionData), Y ∈ regions →
        collect_region fetch pd Y = .ok d →
        mergeRegions (some prior) fetch pd regions Y = some d :=
  ⟨merge_foldl_mem_error prior fetch pd regions _ X old e hmem herr hold,
    fun Y d hY hok => merge_foldl_mem_ok (some prior) fetch pd regions _ Y d hY hok⟩

/-- Witness for claim C3: a two-region batch whose first region raises but
has a prior record (kept unchanged) and whose second region succeeds
(fresh record emitted). -/
theorem c3_carry_forward_witness :
    mergeRegions (some priorCF) fetchCF (fun _ => none) ["잠실동", "개포동"] "잠실동" =
      some oldRecordCF
    ∧ mergeRegions (some priorCF) fetchCF (fun _ => none) ["잠실동", "개포동"] "개포동" =
      some { total_news := 3, items := [],
             summary := "개포동 관련 최신 뉴스가 없습니다." } := by
  have h := c3_carry_forward priorCF fetchCF (fun _ => none) ["잠실동", "개포동"]
    "잠실동" oldRecordCF "HTTP 500" (by decide) rfl rfl
  exact ⟨h.1, h.2 "개포동" _ (by decide) rfl⟩

/-! ### Normalizer machinery (claims C6 and C7). -/

/-- Helper: the close-bracket scan fails exactly on close-free input. -/
theorem skipToClose_eq_none (cs : List Char) :
    skipToClose cs = none ↔ '>' ∉ cs := by
  induction cs with
  | nil => simp [skipToClose]
  | cons c cs ih =>
    by_cases h : c = '>'
    · subst h
      simp [skipToClose]
    · simp only [skipToClose, if_neg h, ih, List.mem_cons]
      constructor
      · intro hn hor
        rcases hor with h1 | h2
        · exact h h1.symm
        · exact hn h2
      · intro hn hm
        exact hn (Or.inr hm)

/-- Helper: a successful close-bracket scan splits its input at the first
closing bracket. -/
theorem skipToClose_decomp (cs rest : List Char) (h : skipToClose cs = some rest) :
    ∃ p, cs = p ++ '>' :: rest := by
  induction cs generalizing rest with
  | nil => simp [skipToClose] at h
  | cons c cs ih =>
    by_cases hc : c = '>'
    · subst hc
      have hs : skipToClose ('>' :: cs) = some cs := by rw [skipToClose, if_pos rfl]
      rw [hs] at h
      exact ⟨[], by rw [Option.some.inj h]; rfl⟩
    · simp only [skipToClose, if_neg hc] at h
      obtain ⟨p, hp⟩ := ih rest h
      exact ⟨c :: p, by rw [hp]; rfl⟩

/-- Helper: a successful tag match splits its input. -/
theorem afterTag_decomp (cs rest : List Char) (h : afterTag cs = some rest) :
    ∃ p, cs = p ++ '>' :: rest := by
  cases cs with
  | nil => simp [afterTag] at h
  | cons c cs =>
    by_cases hc : c = '>'
    · subst hc
      simp [afterTag] at h
    · simp only [afterTag, if_neg hc] at h
      obtain ⟨p, hp⟩ := skipToClose_decomp cs rest h
      exact ⟨c :: p, by rw [hp]; rfl⟩

/-- Helper: a tag match consumes at least one character. -/
theorem afterTag_length (cs rest : List Char) (h : afterTag cs = some rest) :
    rest.length < cs.length := by
  obtain ⟨p, hp⟩ := afterTag_decomp cs rest h
  subst hp
  rw [List.length_append, List.length_cons]
  omega

/-- Helper: the remainder of a tag match is part of the input. -/
theorem afterTag_mem (cs rest : List Char) (h : afterTag cs = some rest) (a : Char)
    (ha : a ∈ rest) : a ∈ cs := by
  obtain ⟨p, hp⟩ := afterTag_decomp cs rest h
  subst hp
  exact List.mem_append_right p (List.mem_cons_of_mem _ ha)

/-- Helper: the tag match fails exactly when the input starts with a
closing bracket or contains none at all. -/
theorem afterTag_eq_none (cs : List Char) :
    afterTag cs = none ↔ cs.head? = some '>' ∨ '>' ∉ cs := by
  cases cs with
  | nil => simp [afterTag]
  | cons c cs =>
    by_cases hc : c = '>'
    · subst hc
      simp [afterTag]
    · simp only [afterTag, if_neg hc, List.head?_cons, skipToClose_eq_none, List.mem_cons,
        Option.some.injEq]
      constructor
      · intro h
        right
        intro hor
        rcases hor with h1 | h2
        · exact hc h1.symm
        · exact h h2
      · intro h
        rcases h with h | h
        · exact absurd h hc
        · exact fun hm => h (Or.inr hm)

/-- Helper: the tag scanner only deletes characters. -/
theorem mem_rtAux (fuel : Nat) (l : List Char) (a : Char) (h : a ∈ rtAux fuel l) :
    a ∈ l := by
  induction fuel generalizing l with
  | zero =>
    cases l with
    | nil => simp [rtAux] at h
    | cons c cs => simpa [rtAux] using h
  | succ fuel ih =>
    cases l with
    | nil => simp [rtAux] at h
    | cons c cs =>
      by_cases hc : c = '<'
      · subst hc
        cases hat : afterTag cs with
        | some rest =>
          rw [show rtAux (fuel + 1) ('<' :: cs) = rtAux fuel rest from by
            simp [rtAux, hat]] at h
          exact List.mem_cons_of_mem _ (afterTag_mem cs rest hat a (ih rest h))
        | none =>
          rw [show rtAux (fuel + 1) ('<' :: cs) = '<' :: rtAux fuel cs from by
            simp [rtAux, hat]] at h
          rcases List.mem_cons.1 h with rfl | h'
          · exact List.mem_cons_self _ _
          · exact List.mem_cons_of_mem _ (ih cs h')
      · rw [show rtAux (fuel + 1) (c :: cs) = c :: rtAux fuel cs from by
          simp [rtAux, hc]] at h
        rcases List.mem_cons.1 h with rfl | h'
        · exact List.mem_cons_self _ _
        · exact List.mem_cons_of_mem _ (ih cs h')

/-- Helper: with enough fuel, the tag scanner's output is a fixpoint of
the tag pattern. -/
theorem tagFree_rtAux (fuel : Nat) (l : List Char) (hf : l.length ≤ fuel) :
    tagFree (rtAux fuel l) = true := by
  induction fuel generalizing l with
  | zero =>
    have h0 : l = [] := List.length_eq_zero.1 (Nat.le_zero.1 hf)
    subst h0
    rfl
  | succ fuel ih =>
    cases l with
    | nil => rfl
    | cons c cs =>
      have hcs : cs.length ≤ fuel := by
        rw [List.length_cons] at hf
        omega
      by_cases hc : c = '<'
      · subst hc
        cases hat : afterTag cs with
        | some rest =>
          rw [show rtAux (fuel + 1) ('<' :: cs) = rtAux fuel rest from by
            simp [rtAux, hat]]
          exact ih rest (le_of_lt (lt_of_lt_of_le (afterTag_length cs rest hat) hcs))
        | none =>
          rw [show rtAux (fuel + 1) ('<' :: cs) = '<' :: rtAux fuel cs from by
            simp [rtAux, hat]]
          have h2 := ih cs hcs
          have h1 : afterTag (rtAux fuel cs) = none := by
            rcases (afterTag_eq_none cs).1 hat with hh | hh
            · cases cs with
              | nil =>
                cases fuel with
                | zero => simpa [rtAux] using (afterTag_eq_none []).2 (Or.inr (by simp))
                | succ fuel' => simpa [rtAux] using (afterTag_eq_none []).2 (Or.inr (by simp))
              | cons d ds =>
                have hd : d = '>' := by simpa using hh
                subst hd
                cases fuel with
                | zero =>
                  rw [List.length_cons] at hcs
                  omega
                | succ fuel' =>
                  rw [show rtAux (fuel' + 1) ('>' :: ds) = '>' :: rtAux fuel' ds from by
                    simp [rtAux]]
                  simp [afterTag]
            · refine (afterTag_eq_none _).2 (Or.inr ?_)
              exact fun hm => hh (mem_rtAux fuel cs '>' hm)
          simp [tagFree, h1, h2]
      · rw [show rtAux (fuel + 1) (c :: cs) = c :: rtAux fuel cs from by
          simp [rtAux, hc]]
        simp [tagFree, hc, ih cs hcs]

/-- Helper: the tag scanner is the identity on tag-free input. -/
theorem rtAux_of_tagFree (fuel : Nat) (l : List Char) (h : tagFree l = true) :
    rtAux fuel l = l := by
  induction fuel generalizing l with
  | zero => cases l <;> rfl
  | succ fuel ih =>
    cases l with
    | nil => rfl
    | cons c cs =>
      rw [tagFree, Bool.and_eq_true] at h
      by_cases hc : c = '<'
      · subst hc
        rw [if_pos rfl] at h
        have hat : afterTag cs = none := Option.isNone_iff_eq_none.1 h.1
        rw [show rtAux (fuel + 1) ('<' :: cs) = '<' :: rtAux fuel cs from by
          simp [rtAux, hat]]
        rw [ih cs h.2]
      · rw [show rtAux (fuel + 1) (c :: cs) = c :: rtAux fuel cs from by
          simp [rtAux, hc]]
        rw [ih cs h.2]

/-- Helper: tag-freeness passes to suffixes. -/
theorem tagFree_append_right (u v : List Char) (h : tagFree (u ++ v) = true) :
    tagFree v = true := by
  induction u with
  | nil => exact h
  | cons c u ih =>
    rw [List.cons_append, tagFree, Bool.and_eq_true] at h
    exact ih h.2

/-- Helper: a failing tag match still fails on a prefix of its input. -/
theorem afterTag_none_append (u v : List Char) (h : afterTag (u ++ v) = none) :
    afterTag u = none := by
  rcases (afterTag_eq_none _).1 h with hh | hh
  · cases u with
    | nil => rfl
    | cons c u' =>
      refine (afterTag_eq_none _).2 (Or.inl ?_)
      simpa using hh
  · exact (afterTag_eq_none _).2 (Or.inr fun hm => hh (List.mem_append_left v hm))

/-- Helper: tag-freeness passes to prefixes. -/
theorem tagFree_append_left (u v : List Char) (h : tagFree (u ++ v) = true) :
    tagFree u = true := by
  induction u with
  | nil => rfl
  | cons c u ih =>
    rw [List.cons_append, tagFree, Bool.and_eq_true] at h
    rw [tagFree, Bool.and_eq_true]
    refine ⟨?_, ih h.2⟩
    by_cases hc : c = '<'
    · subst hc
      rw [if_pos rfl] at h ⊢
      rw [Option.isNone_iff_eq_none]
      exact afterTag_none_append u v (Option.isNone_iff_eq_none.1 h.1)
    · rw [if_neg hc]

/-- Helper: tag-freeness passes to infix segments. -/
theorem tagFree_of_append (s m t : List Char) (h : tagFree (s ++ m ++ t) = true) :
    tagFree m = true := by
  have h1 : tagFree (m ++ t) = true := by
    refine tagFree_append_right s (m ++ t) ?_
    rwa [← List.append_assoc]
  exact tagFree_append_left m t h1

/-- Helper: the quote-variant relation is reflexive. -/
theorem qv_refl (a : Char) : qv a a := Or.inl rfl

theorem forall₂_qv_refl (l : List Char) : List.Forall₂ qv l l := by
  induction l with
  | nil => exact List.Forall₂.nil
  | cons c cs ih => exact List.Forall₂.cons (qv_refl c) ih

theorem forall₂_qv_append {l₁ m₁ l₂ m₂ : List Char} (h1 : List.Forall₂ qv l₁ m₁)
    (h2 : List.Forall₂ qv l₂ m₂) : List.Forall₂ qv (l₁ ++ l₂) (m₁ ++ m₂) := by
  induction h1 with
  | nil => exact h2
  | cons h hs ih => exact List.Forall₂.cons h ih

/-- Helper: along the quote-variant relation, output characters are either
apostrophes or input characters. -/
theorem qv_mem {l m : List Char} (h : List.Forall₂ qv l m) (a : Char) (ha : a ∈ m) :
    a = '\'' ∨ a ∈ l := by
  induction h with
  | nil => cases ha
  | @cons x y l₁ m₁ hq _ ih =>
    rcases List.mem_cons.1 ha with rfl | ha'
    · rcases hq with he | he
      · exact Or.inr (by rw [he]; exact List.mem_cons_self _ _)
      · exact Or.inl he.2
    · rcases ih ha' with h1 | h1
      · exact Or.inl h1
      · exact Or.inr (List.mem_cons_of_mem _ h1)

/-- Helper: the quote-variant relation preserves a leading close bracket. -/
theorem qv_head {l m : List Char} (h : List.Forall₂ qv l m)
    (hh : l.head? = some '>') : m.head? = some '>' := by
  cases h with
  | nil => simp at hh
  | @cons x y l₁ m₁ hq hs =>
    have hx : x = '>' := by simpa using hh
    subst hx
    rcases hq with he | he
    · simp [he]
    · exact absurd he.1 (by decide)

/-- Helper: a failing tag match keeps failing across quote conversion. -/
theorem afterTag_none_qv {v w : List Char} (h : List.Forall₂ qv v w)
    (hv : afterTag v = none) : afterTag w = none := by
  rcases (afterTag_eq_none _).1 hv with hh | hh
  · exact (afterTag_eq_none _).2 (Or.inl (qv_head h hh))
  · refine (afterTag_eq_none _).2 (Or.inr fun hm => ?_)
    rcases qv_mem h '>' hm with h1 | h1
    · exact absurd h1 (by decide)
    · exact hh h1

/-- Helper: tag-freeness transports along the quote-variant relation. -/
theorem tagFree_qv {l m : List Char} (h : List.Forall₂ qv l m)
    (hl : tagFree l = true) : tagFree m = true := by
  induction h with
  | nil => rfl
  | @cons x y l₁ m₁ hq hs ih =>
    rw [tagFree, Bool.and_eq_true] at hl
    rw [tagFree, Bool.and_eq_true]
    refine ⟨?_, ih hl.2⟩
    by_cases hy : y = '<'
    · have hx : x = '<' := by
        rcases hq with he | he
        · exact he.symm.trans hy
        · exact absurd (he.2.symm.trans hy) (by decide)
      rw [if_pos hy, Option.isNone_iff_eq_none]
      rw [hx, if_pos rfl] at hl
      exact afterTag_none_qv hs (Option.isNone_iff_eq_none.1 hl.1)
    · rw [if_neg hy]

/-- Helper: a successful quote scan splits the input at the next quote. -/
theorem findQuote_decomp (cs : List Char) (a rest : List Char)
    (h : findQuote cs = some (a, rest)) : cs = a ++ '"' :: rest := by
  induction cs generalizing a rest with
  | nil => simp [findQuote] at h
  | cons c cs ih =>
    by_cases hc : c = '"'
    · subst hc
      have hs : findQuote ('"' :: cs) = some ([], cs) := by rw [findQuote, if_pos rfl]
      rw [hs] at h
      obtain ⟨h1, h2⟩ := Prod.mk.injEq .. ▸ Option.some.inj h
      rw [← h1, ← h2]
      rfl
    · rw [findQuote, if_neg hc] at h
      cases hfq : findQuote cs with
      | none => rw [hfq] at h; cases h
      | some p =>
        obtain ⟨a', rest'⟩ := p
        rw [hfq] at h
        obtain ⟨h1, h2⟩ := Prod.mk.injEq .. ▸ Option.some.inj h
        rw [← h1, ← h2, ih a' rest' hfq]
        rfl

/-- Helper: a successful quoted-span match splits the input. -/
theorem quoteSpan_decomp (cs : List Char) (a rest : List Char)
    (h : quoteSpan cs = some (a, rest)) : cs = a ++ '"' :: rest := by
  cases cs with
  | nil => simp [quoteSpan] at h
  | cons c cs =>
    by_cases hc : c = '"'
    · subst hc
      rw [quoteSpan, if_pos rfl] at h
      cases h
    · rw [quoteSpan, if_neg hc] at h
      cases hfq : findQuote cs with
      | none => rw [hfq] at h; cases h
      | some p =>
        obtain ⟨a', rest'⟩ := p
        rw [hfq] at h
        obtain ⟨h1, h2⟩ := Prod.mk.injEq .. ▸ Option.some.inj h
        rw [← h1, ← h2, findQuote_decomp cs a' rest' hfq]
        rfl

/-- Helper: the quote-span scanner relates input and output by the
quote-variant relation. -/
theorem qv_cqAux (fuel : Nat) (l : List Char) : List.Forall₂ qv l (cqAux fuel l) := by
  induction fuel generalizing l with
  | zero =>
    cases l with
    | nil => exact List.Forall₂.nil
    | cons c cs => exact forall₂_qv_refl _
  | succ fuel ih =>
    cases l with
    | nil => exact List.Forall₂.nil
    | cons c cs =>
      by_cases hc : c = '"'
      · subst hc
        cases hqs : quoteSpan cs with
        | some p =>
          obtain ⟨a, rest⟩ := p
          rw [show cqAux (fuel + 1) ('"' :: cs) = '\'' :: (a ++ '\'' :: cqAux fuel rest)
            from by simp [cqAux, hqs]]
          rw [quoteSpan_decomp cs a rest hqs]
          exact List.Forall₂.cons (Or.inr ⟨rfl, rfl⟩)
            (forall₂_qv_append (forall₂_qv_refl a)
              (List.Forall₂.cons (Or.inr ⟨rfl, rfl⟩) (ih rest)))
        | none =>
          rw [show cqAux (fuel + 1) ('"' :: cs) = '"' :: cqAux fuel cs from by
            simp [cqAux, hqs]]
          exact List.Forall₂.cons (qv_refl _) (ih cs)
      · rw [show cqAux (fuel + 1) (c :: cs) = c :: cqAux fuel cs from by
          simp [cqAux, hc]]
        exact List.Forall₂.cons (qv_refl _) (ih cs)

/-- Helper: the quote-span scanner is the identity on quote-free input. -/
theorem cqAux_no_quote (fuel : Nat) (l : List Char) (h : '"' ∉ l) :
    cqAux fuel l = l := by
  induction fuel generalizing l with
  | zero => cases l <;> rfl
  | succ fuel ih =>
    cases l with
    | nil => rfl
    | cons c cs =>
      have hc : ¬ c = '"' := fun he => h (he ▸ List.mem_cons_self _ _)
      rw [show cqAux (fuel + 1) (c :: cs) = c :: cqAux fuel cs from by
        simp [cqAux, hc]]
      rw [ih cs (fun hm => h (List.mem_cons_of_mem _ hm))]

/-- Helper: the blanket quote replacement is a quote variant. -/
theorem qv_blanketQuotes (l : List Char) : List.Forall₂ qv l (blanketQuotes l) := by
  induction l with
  | nil => exact List.Forall₂.nil
  | cons c cs ih =>
    refine List.Forall₂.cons ?_ ih
    by_cases hc : c = '"'
    · subst hc
      exact Or.inr ⟨rfl, by rw [quoteFix, if_pos rfl]⟩
    · exact Or.inl (by rw [quoteFix, if_neg hc])

/-- Helper: no double quote survives the blanket replacement. -/
theorem no_quote_blanketQuotes (l : List Char) : '"' ∉ blanketQuotes l := by
  intro hm
  obtain ⟨c, _, he⟩ := List.mem_map.1 hm
  by_cases h : c = '"'
  · rw [h, quoteFix, if_pos rfl] at he
    exact absurd he (by decide)
  · rw [quoteFix, if_neg h] at he
    exact h he

/-- Helper: the blanket replacement is the identity on quote-free input. -/
theorem blanketQuotes_no_quote (l : List Char) (h : '"' ∉ l) :
    blanketQuotes l = l := by
  induction l with
  | nil => rfl
  | cons c cs ih =>
    have hc : ¬ c = '"' := fun he => h (he ▸ List.mem_cons_self _ _)
    show quoteFix c :: blanketQuotes cs = c :: cs
    rw [quoteFix, if_neg hc, ih (fun hm => h (List.mem_cons_of_mem _ hm))]

/-- Helper: the replace scanner is the identity when the pattern's first
character never occurs. -/
theorem raAux_head_not_mem (p : Char) (ps rep : List Char) (fuel : Nat)
    (l : List Char) (h : p ∉ l) : raAux (p :: ps) rep fuel l = l := by
  induction fuel generalizing l with
  | zero => cases l <;> rfl
  | succ fuel ih =>
    cases l with
    | nil => rfl
    | cons c cs =>
      have hpc : (p == c) = false :=
        beq_eq_false_iff_ne.2 (fun he => h (he ▸ List.mem_cons_self _ _))
      rw [show raAux (p :: ps) rep (fuel + 1) (c :: cs) =
          c :: raAux (p :: ps) rep fuel cs from by
        simp [raAux, List.isPrefixOf, hpc]]
      rw [ih cs (fun hm => h (List.mem_cons_of_mem _ hm))]

theorem replaceAll_head_not_mem (pat rep l : List Char) (p : Char)
    (hp : pat.head? = some p) (h : p ∉ l) : replaceAll pat rep l = l := by
  cases pat with
  | nil => simp at hp
  | cons q ps =>
    have hq : q = p := by simpa using hp
    subst hq
    exact raAux_head_not_mem q ps rep l.length l h

/-- Helper: entity decoding is the identity on ampersand-free input (every
entity pattern begins with an ampersand). -/
theorem decodeEntities_no_amp (l : List Char) (h : '&' ∉ l) :
    decodeEntities l = l := by
  unfold decodeEntities
  rw [replaceAll_head_not_mem "&quot;".data _ l '&' rfl h,
    replaceAll_head_not_mem "&amp;".data _ l '&' rfl h,
    replaceAll_head_not_mem "&lt;".data _ l '&' rfl h,
    replaceAll_head_not_mem "&gt;".data _ l '&' rfl h,
    replaceAll_head_not_mem "&apos;".data _ l '&' rfl h]

/-- Helper: dropWhile is idempotent. -/
theorem dropWhile_idem (p : Char → Bool) (l : List Char) :
    (l.dropWhile p).dropWhile p = l.dropWhile p := by
  induction l with
  | nil => rfl
  | cons c cs ih =>
    rw [List.dropWhile_cons]
    by_cases hc : p c = true
    · rw [if_pos hc]
      exact ih
    · rw [if_neg hc, List.dropWhile_cons, if_neg hc]

/-- Helper: dropWhile only removes a prefix. -/
theorem dropWhile_decomp (p : Char → Bool) (l : List Char) :
    ∃ u, l = u ++ l.dropWhile p := by
  induction l with
  | nil => exact ⟨[], rfl⟩
  | cons c cs ih =>
    rw [List.dropWhile_cons]
    by_cases hc : p c = true
    · rw [if_pos hc]
      obtain ⟨u, hu⟩ := ih
      exact ⟨c :: u, by rw [List.cons_append, ← hu]⟩
    · rw [if_neg hc]
      exact ⟨[], rfl⟩

/-- Helper: dropWhile never lengthens a list. -/
theorem length_dropWhile_le_self (p : Char → Bool) (l : List Char) :
    (l.dropWhile p).length ≤ l.length := by
  induction l with
  | nil => exact le_rfl
  | cons c cs ih =>
    rw [List.dropWhile_cons]
    by_cases hc : p c = true
    · rw [if_pos hc]
      exact le_trans ih (Nat.le_succ _)
    · rw [if_neg hc]

/-- Helper: a fixpoint of dropWhile stays one after truncation. -/
theorem dropWhile_eq_self_append (p : Char → Bool) (m w : List Char)
    (h : (m ++ w).dropWhile p = m ++ w) : m.dropWhile p = m := by
  cases m with
  | nil => rfl
  | cons c cs =>
    rw [List.cons_append, List.dropWhile_cons] at h
    by_cases hc : p c = true
    · rw [if_pos hc] at h
      have h1 : ((cs ++ w).dropWhile p).length = (c :: (cs ++ w)).length :=
        congrArg List.length h
      rw [List.length_cons] at h1
      have h2 := length_dropWhile_le_self p (cs ++ w)
      omega
    · rw [List.dropWhile_cons, if_neg hc]

/-- Helper: the strip of the output decomposes the input. -/
theorem pyStrip_decomp (l : List Char) : ∃ u w, l = u ++ pyStrip l ++ w := by
  obtain ⟨u1, hu1⟩ := dropWhile_decomp isSpc l
  obtain ⟨u2, hu2⟩ := dropWhile_decomp isSpc (l.dropWhile isSpc).reverse
  refine ⟨u1, u2.reverse, ?_⟩
  unfold pyStrip
  have hd : l.dropWhile isSpc =
      ((l.dropWhile isSpc).reverse.dropWhile isSpc).reverse ++ u2.reverse := by
    have h := congrArg List.reverse hu2
    rwa [List.reverse_reverse, List.reverse_append] at h
  rw [List.append_assoc, ← hd]
  exact hu1

/-- Helper: Python strip is idempotent. -/
theorem pyStrip_idem (l : List Char) : pyStrip (pyStrip l) = pyStrip l := by
  obtain ⟨u2, hu2⟩ := dropWhile_decomp isSpc (l.dropWhile isSpc).reverse
  have hsplit : l.dropWhile isSpc =
      ((l.dropWhile isSpc).reverse.dropWhile isSpc).reverse ++ u2.reverse := by
    have h := congrArg List.reverse hu2
    rwa [List.reverse_reverse, List.reverse_append] at h
  have ha : (((l.dropWhile isSpc).reverse.dropWhile isSpc).reverse).dropWhile isSpc =
      ((l.dropWhile isSpc).reverse.dropWhile isSpc).reverse := by
    refine dropWhile_eq_self_append isSpc _ u2.reverse ?_
    rw [← hsplit]
    exact dropWhile_idem isSpc l
  show pyStrip (((l.dropWhile isSpc).reverse.dropWhile isSpc).reverse) = _
  unfold pyStrip
  rw [ha, List.reverse_reverse, dropWhile_idem isSpc (l.dropWhile isSpc).reverse]

/-- Helper: stripping only removes characters. -/
theorem mem_pyStrip (l : List Char) (a : Char) (ha : a ∈ pyStrip l) : a ∈ l := by
  obtain ⟨u, w, hw⟩ := pyStrip_decomp l
  rw [hw]
  exact List.mem_append_left w (List.mem_append_right u ha)

/-- Helper: no double quote ever survives clean_html. -/
theorem no_quote_cleanChars (l : List Char) : '"' ∉ cleanChars l := fun hm =>
  no_quote_blanketQuotes _ (mem_pyStrip _ _ hm)

/-- Helper: clean_html introduces no ampersand. -/
theorem no_amp_cleanChars (l : List Char) (h : '&' ∉ l) : '&' ∉ cleanChars l := by
  intro hm
  have h1 : '&' ∉ removeTags l := fun hx => h (mem_rtAux _ _ _ hx)
  have hm1 : '&' ∈ blanketQuotes (convQuotes (decodeEntities (removeTags l))) :=
    mem_pyStrip _ _ hm
  rw [decodeEntities_no_amp _ h1] at hm1
  rcases qv_mem (qv_blanketQuotes _) '&' hm1 with he | hm2
  · exact absurd he (by decide)
  · rcases qv_mem (qv_cqAux _ _) '&' hm2 with he | hm3
    · exact absurd he (by decide)
    · exact h1 hm3

/-- Helper: the output of clean_html admits no further tag match. -/
theorem tagFree_cleanChars (l : List Char) (h : '&' ∉ l) :
    tagFree (cleanChars l) = true := by
  have h1 : '&' ∉ removeTags l := fun hx => h (mem_rtAux _ _ _ hx)
  have t0 : tagFree (removeTags l) = true := tagFree_rtAux l.length l le_rfl
  have t1 : tagFree (convQuotes (removeTags l)) = true :=
    tagFree_qv (qv_cqAux _ _) t0
  have t2 : tagFree (blanketQuotes (convQuotes (removeTags l))) = true :=
    tagFree_qv (qv_blanketQuotes _) t1
  show tagFree (pyStrip (blanketQuotes (convQuotes (decodeEntities (removeTags l))))) =
    true
  rw [decodeEntities_no_amp _ h1]
  obtain ⟨u, w, hw⟩ := pyStrip_decomp (blanketQuotes (convQuotes (removeTags l)))
  refine tagFree_of_append u _ w ?_
  rw [← hw]
  exact t2

/-- Helper: clean_html is idempotent on ampersand-free character lists. -/
theorem cleanChars_idem (l : List Char) (h : '&' ∉ l) :
    cleanChars (cleanChars l) = cleanChars l := by
  have hq : '"' ∉ cleanChars l := no_quote_cleanChars l
  have ha : '&' ∉ cleanChars l := no_amp_cleanChars l h
  have ht : tagFree (cleanChars l) = true := tagFree_cleanChars l h
  show pyStrip (blanketQuotes (convQuotes (decodeEntities (removeTags (cleanChars l))))) =
    cleanChars l
  rw [show removeTags (cleanChars l) = cleanChars l from rtAux_of_tagFree _ _ ht]
  rw [decodeEntities_no_amp _ ha]
  rw [show convQuotes (cleanChars l) = cleanChars l from cqAux_no_quote _ _ hq]
  rw [blanketQuotes_no_quote _ hq]
  show pyStrip (pyStrip (blanketQuotes (convQuotes (decodeEntities (removeTags l))))) = _
  exact pyStrip_idem _

/-- Helper: evaluation rules connecting the String wrapper to the
character-list pipeline. -/
theorem string_mk_data (l : List Char) : (String.mk l).data = l := rfl

theorem clean_html_eq (l : List Char) :
    clean_html (String.mk l) = String.mk (cleanChars l) := rfl

/-- Counterexample to claim C6: the normalizer is not idempotent on every
input, because entity decoding can manufacture a fresh markup tag that a
second pass then removes — the encoded text of a bold tag normalizes to the
tag itself, which a second normalization deletes. -/
theorem c6_counterexample :
    clean_html (clean_html "&lt;b&gt;") ≠ clean_html "&lt;b&gt;" := by decide

set_option maxHeartbeats 1000000 in
/-- Claim C6 as amended: the normalizer is idempotent on every input string
that contains no ampersand (so no entity decoding can manufacture new
markup or entities); on such inputs normalize(normalize(x)) = normalize(x). -/
theorem c6_normalize_idem (s : String) (h : '&' ∉ s.data) :
    clean_html (clean_html s) = clean_html s := by
  obtain ⟨l⟩ := s
  rw [string_mk_data] at h
  rw [clean_html_eq, clean_html_eq]
  exact congrArg String.mk (cleanChars_idem l h)

/-- Witness for the amended claim C6 at a concrete input containing markup,
quotes and surrounding whitespace, but no ampersand. -/
theorem c6_normalize_idem_witness :
    '&' ∉ (" <b>\"시세\" 급등</b> ").data ∧
      clean_html (clean_html " <b>\"시세\" 급등</b> ") =
        clean_html " <b>\"시세\" 급등</b> " :=
  ⟨by decide, c6_normalize_idem " <b>\"시세\" 급등</b> " (by decide)⟩

/-- Helper: a tag-free list contains no tag span. -/
theorem tagFree_split (u v : List Char) (h : tagFree (u ++ '<' :: v) = true) :
    v.head? = some '>' ∨ '>' ∉ v := by
  have h1 : tagFree ('<' :: v) = true := tagFree_append_right u _ h
  rw [tagFree, Bool.and_eq_true, if_pos rfl] at h1
  exact (afterTag_eq_none v).1 (Option.isNone_iff_eq_none.1 h1.1)

theorem noTagSpan_of_tagFree (l : List Char) (h : tagFree l = true) : noTagSpan l := by
  rintro ⟨u, a, w, heq, hne, hnotin⟩
  subst heq
  rcases tagFree_split u (a ++ '>' :: w) h with hh | hh
  · cases a with
    | nil => exact hne rfl
    | cons b bs =>
      have hb : b = '>' := by simpa using hh
      subst hb
      exact hnotin (List.mem_cons_self _ _)
  · exact hh (List.mem_append_right a (List.mem_cons_self _ _))

/-- Counterexample to claim C7: the normalizer's output can contain a
markup tag span, because entity decoding runs after tag removal — the
entity-encoded bold tag decodes into a literal tag that stays in the
output. -/
theorem c7_counterexample : ¬ noTagSpan (clean_html "&lt;b&gt;").data := by
  intro h
  exact h ⟨[], ['b'], [], by decide, by decide, by decide⟩

/-- Claim C7 as amended: for every input the normalized output contains no
double-quote character (so titles and descriptions embed safely in a JSON
document), and — provided the input contains no ampersand, ruling out
entity-manufactured tags — no markup tag span either. -/
theorem c7_output_sanitised (s : String) :
    '"' ∉ (clean_html s).data ∧
      ('&' ∉ s.data → noTagSpan (clean_html s).data) := by
  obtain ⟨l⟩ := s
  rw [clean_html_eq, string_mk_data, string_mk_data]
  constructor
  · exact no_quote_cleanChars l
  · intro h
    exact noTagSpan_of_tagFree _ (tagFree_cleanChars l h)

/-- Witness for the amended claim C7 at a concrete markup-laden input. -/
theorem c7_output_sanitised_witness :
    '"' ∉ (clean_html "<b>\"시세\" 급등</b>").data ∧
      noTagSpan (clean_html "<b>\"시세\" 급등</b>").data :=
  ⟨(c7_output_sanitised "<b>\"시세\" 급등</b>").1,
    (c7_output_sanitised "<b>\"시세\" 급등</b>").2 (by decide)⟩

end RealEstate
